import Mathlib

/-!
Verification of the IAVL node core (`iavl_node.go`): a persistent,
self-balancing, hash-linked search tree mapping byte-string keys to
byte-string values.  Byte strings are modelled as `List Nat` (each entry a
byte value), Go `int`/`int8` fields as `Int` (AVL heights and sizes stay far
inside the machine ranges reachable by the algorithms, so wrap-around is
modelled only where the serialization formats make it observable), and Go
`uint64` as `Nat`.

The tree handle `t *IAVLTree` is threaded by the source only to reach the
node database (`t.ndb`) and the orphan sink.  Following the specification's
test harness ("a stub store that refuses all lookups"), `t.ndb` is modelled
as absent: `getLeftNode`/`getRightNode` fail with `Err.storeMiss` when the
in-memory child is missing, and `removeOrphan` (which returns immediately
when `t.ndb == nil`) is a no-op.  Fatal `panic` sites of the source are
modelled as distinguished error values so that reachability of each abort
branch can be stated.
-/

/-- Failure modes of the node core.  `storeMiss` models a child lookup that
falls through to the absent node store; the `...Panic` constructors model the
source's fatal `panic`/`PanicSanity` sites; `decodeError` models a go-wire
decoding error returned to the caller; `outOfRangePanic` models a Go slice
index/reslice fault. -/
inductive Err : Type where
  | storeMiss
  | copyLeafPanic
  | persistedBalancePanic
  | nilHashPanic
  | decodeError
  | outOfRangePanic
  deriving DecidableEq, Repr

/-- Lexicographic comparison of byte strings, modelling Go `bytes.Compare`:
the shorter string is smaller when one is a prefix of the other. -/
def bytesCompare : List Nat → List Nat → Ordering
  | [], [] => .eq
  | [], _ :: _ => .lt
  | _ :: _, [] => .gt
  | a :: as, b :: bs =>
    if a < b then .lt else if b < a then .gt else bytesCompare as bs

/-- Modelled from the spec: go-wire fixed-width signed 8-bit integer, written
as a single byte in two's complement. -/
def writeInt8 (i : Int) : List Nat := [(i % 256).toNat]

/-- Modelled from the spec: reading back a two's-complement byte as `int8`. -/
def readInt8 (b : Nat) : Int := if b < 128 then (b : Int) else (b : Int) - 256

/-- Zig-zag coding of a signed integer into a natural number. -/
def zigzag (i : Int) : Nat := if 0 ≤ i then (2 * i).toNat else (-(2 * i) - 1).toNat

/-- Inverse of `zigzag`. -/
def unzigzag (n : Nat) : Int :=
  if n % 2 = 0 then ((n / 2 : Nat) : Int) else -((n / 2 : Nat) : Int) - 1

/-- LEB128 continuation-bit encoding of a natural number; the first argument
is fuel bounding the recursion (any fuel at least the value itself yields the
encoding). -/
def leb128Aux : Nat → Nat → List Nat
  | 0, n => [n % 128]
  | fuel + 1, n => if n < 128 then [n] else (n % 128 + 128) :: leb128Aux fuel (n / 128)

/-- LEB128 encoding of a natural number. -/
def leb128 (n : Nat) : List Nat := leb128Aux n n

/-- LEB128 decoding: returns the value and the number of bytes consumed, or
`none` on empty or unterminated input. -/
def getLeb128 : List Nat → Option (Nat × Nat)
  | [] => none
  | b :: rest =>
    if b < 128 then some (b, 1)
    else
      match getLeb128 rest with
      | none => none
      | some (v, n) => some (b - 128 + 128 * v, n + 1)

/-- Modelled from the spec: go-wire variable-length signed integer
("zig-zag/LEB128-style"). -/
def writeVarint (i : Int) : List Nat := leb128 (zigzag i)

/-- Modelled from the spec: decoding a variable-length signed integer;
returns the value and bytes consumed, or `none` on malformed input (the
go-wire error case). -/
def getVarint (buf : List Nat) : Option (Int × Nat) :=
  match getLeb128 buf with
  | none => none
  | some (v, n) => some (unzigzag v, n)

/-- Modelled from the spec: go-wire fixed-width unsigned 64-bit integer,
eight bytes big-endian. -/
def writeUint64 (v : Nat) : List Nat :=
  [v / 256 ^ 7 % 256, v / 256 ^ 6 % 256, v / 256 ^ 5 % 256, v / 256 ^ 4 % 256,
   v / 256 ^ 3 % 256, v / 256 ^ 2 % 256, v / 256 % 256, v % 256]

/-- Modelled from the spec: reading a fixed-width unsigned 64-bit integer.
`none` models the Go slice fault (`binary.BigEndian.Uint64` and the `buf[8:]`
reslice) on fewer than eight bytes; on success the remaining buffer is
returned. -/
def getUint64 : List Nat → Option (Nat × List Nat)
  | b0 :: b1 :: b2 :: b3 :: b4 :: b5 :: b6 :: b7 :: rest =>
    some (b0 * 256 ^ 7 + b1 * 256 ^ 6 + b2 * 256 ^ 5 + b3 * 256 ^ 4
      + b4 * 256 ^ 3 + b5 * 256 ^ 2 + b6 * 256 + b7, rest)
  | _ => none

/-- Modelled from the spec: go-wire length-prefixed byte slice
(variable-length length followed by the raw bytes). -/
def writeByteSlice (bs : List Nat) : List Nat := writeVarint (bs.length : Int) ++ bs

/-- Modelled from the spec: decoding a length-prefixed byte slice; returns
the bytes and the total number of bytes consumed, or `none` on malformed or
truncated input (the go-wire error case, including a negative length). -/
def getByteSlice (buf : List Nat) : Option (List Nat × Nat) :=
  match getVarint buf with
  | none => none
  | some (len, n) =>
    if len < 0 then none
    else
      let l := len.toNat
      let rest := buf.drop n
      if rest.length < l then none else some (rest.take l, n + l)

/-- The RIPEMD-160 digest of the source is modelled as an injective coding of
its input (the digest input itself).  All statements about digest equality or
inequality then coincide with equality of the digested byte strings, which is
the intended reading under collision resistance of the real digest. -/
def ripemd160 (bs : List Nat) : List Nat := bs

/-- The node record of `iavl_node.go`.  Children are referenced by an
optional in-memory node (`leftNode`/`rightNode`) and an optional cached hash
(`leftHash`/`rightHash`), exactly as in the source struct; `none` models a
nil pointer or nil byte slice. -/
inductive IAVLNode : Type where
  | mk (key : List Nat) (value : List Nat) (version : Nat) (height : Int)
       (size : Int) (hash : Option (List Nat)) (leftHash : Option (List Nat))
       (leftNode : Option IAVLNode) (rightHash : Option (List Nat))
       (rightNode : Option IAVLNode) (persisted : Bool)

def IAVLNode.key : IAVLNode → List Nat
  | .mk k _ _ _ _ _ _ _ _ _ _ => k

def IAVLNode.value : IAVLNode → List Nat
  | .mk _ v _ _ _ _ _ _ _ _ _ => v

def IAVLNode.version : IAVLNode → Nat
  | .mk _ _ ver _ _ _ _ _ _ _ _ => ver

def IAVLNode.height : IAVLNode → Int
  | .mk _ _ _ h _ _ _ _ _ _ _ => h

def IAVLNode.size : IAVLNode → Int
  | .mk _ _ _ _ s _ _ _ _ _ _ => s

def IAVLNode.hash : IAVLNode → Option (List Nat)
  | .mk _ _ _ _ _ ha _ _ _ _ _ => ha

def IAVLNode.leftHash : IAVLNode → Option (List Nat)
  | .mk _ _ _ _ _ _ lh _ _ _ _ => lh

def IAVLNode.leftNode : IAVLNode → Option IAVLNode
  | .mk _ _ _ _ _ _ _ ln _ _ _ => ln

def IAVLNode.rightHash : IAVLNode → Option (List Nat)
  | .mk _ _ _ _ _ _ _ _ rh _ _ => rh

def IAVLNode.rightNode : IAVLNode → Option IAVLNode
  | .mk _ _ _ _ _ _ _ _ _ rn _ => rn

def IAVLNode.persisted : IAVLNode → Bool
  | .mk _ _ _ _ _ _ _ _ _ _ p => p

/-- Field update helper modelling the Go assignments `node.height = ...;
node.size = ...`. -/
def IAVLNode.withHeightSize : IAVLNode → Int → Int → IAVLNode
  | .mk k v ver _ _ ha lh ln rh rn p, h, s => .mk k v ver h s ha lh ln rh rn p

/-- Field update helper modelling the paired Go assignment
`node.leftHash, node.leftNode = ...`. -/
def IAVLNode.withLeft : IAVLNode → Option (List Nat) → Option IAVLNode → IAVLNode
  | .mk k v ver h s ha _ _ rh rn p, lh, ln => .mk k v ver h s ha lh ln rh rn p

/-- Field update helper modelling the paired Go assignment
`node.rightHash, node.rightNode = ...`. -/
def IAVLNode.withRight : IAVLNode → Option (List Nat) → Option IAVLNode → IAVLNode
  | .mk k v ver h s ha lh ln _ _ p, rh, rn => .mk k v ver h s ha lh ln rh rn p

/-- Field update helper modelling the Go assignment `node.key = ...`. -/
def IAVLNode.withKey : IAVLNode → List Nat → IAVLNode
  | .mk _ v ver h s ha lh ln rh rn p, k => .mk k v ver h s ha lh ln rh rn p

/-- Field update helper modelling the Go assignment `node.hash = ...`. -/
def IAVLNode.withHash : IAVLNode → Option (List Nat) → IAVLNode
  | .mk k v ver h s _ lh ln rh rn p, ha => .mk k v ver h s ha lh ln rh rn p

/-- Field update helper used to state that a field is irrelevant to a
serialization (the source never assigns `version` outside construction and
decoding). -/
def IAVLNode.withVersion : IAVLNode → Nat → IAVLNode
  | .mk k v _ h s ha lh ln rh rn p, ver => .mk k v ver h s ha lh ln rh rn p

/-- Structural equality test on nodes (all eleven fields, children compared
recursively). -/
def nodeBEq : IAVLNode → IAVLNode → Bool
  | .mk k v ver h s ha lh l rh r p, .mk k' v' ver' h' s' ha' lh' l' rh' r' p' =>
    k == k' && v == v' && ver == ver' && h == h' && s == s' && ha == ha'
    && lh == lh' && rh == rh' && p == p'
    && (match l, l' with
        | none, none => true
        | some a, some b => nodeBEq a b
        | _, _ => false)
    && (match r, r' with
        | none, none => true
        | some a, some b => nodeBEq a b
        | _, _ => false)

/-- `NewIAVLNode` of the source: a fresh leaf (height 0, size 1, version 0,
no hash, no children, not persisted). -/
def NewIAVLNode (key value : List Nat) : IAVLNode :=
  .mk key value 0 0 1 none none none none none false

/-- `node.isLeaf()` of the source. -/
def IAVLNode.isLeaf (n : IAVLNode) : Bool := n.height == 0

/-- `MakeIAVLNode` of the source: decode a node from its store-bytes.  The
source reads `buf[0]` (faulting on an empty slice), a varint size, a
length-prefixed key, a fixed eight-byte version (faulting when fewer than
eight bytes remain), then a value for a leaf or two child hashes for an inner
node; go-wire errors are returned to the caller.  The hash is not set. -/
def MakeIAVLNode (buf : List Nat) : Except Err IAVLNode :=
  match buf with
  | [] => .error .outOfRangePanic
  | b0 :: buf1 =>
    match getVarint buf1 with
    | none => .error .decodeError
    | some (size, n1) =>
      match getByteSlice (buf1.drop n1) with
      | none => .error .decodeError
      | some (key, n2) =>
        match getUint64 ((buf1.drop n1).drop n2) with
        | none => .error .outOfRangePanic
        | some (version, buf4) =>
          if readInt8 b0 = 0 then
            match getByteSlice buf4 with
            | none => .error .decodeError
            | some (value, _) =>
              .ok (.mk key value version (readInt8 b0) size none none none none none false)
          else
            match getByteSlice buf4 with
            | none => .error .decodeError
            | some (lh, n5) =>
              match getByteSlice (buf4.drop n5) with
              | none => .error .decodeError
              | some (rh, _) =>
                .ok (.mk key [] version (readInt8 b0) size none (some lh) none
                  (some rh) none false)

/-- `node._copy()` of the source: `PanicSanity` on a leaf; otherwise a clone
with `hash` cleared and `persisted` false.  The struct literal omits `value`,
so the copy's value is the zero value (nil, modelled as `[]`). -/
def IAVLNode.copyNode : IAVLNode → Except Err IAVLNode
  | .mk k _ ver h s _ lh ln rh rn _ =>
    if h == 0 then .error .copyLeafPanic
    else .ok (.mk k [] ver h s none lh ln rh rn false)

/-- `node.getLeftNode(t)` of the source: the resident child if present,
otherwise a node-store lookup, which the stub store refuses. -/
def IAVLNode.getLeftNode (n : IAVLNode) : Except Err IAVLNode :=
  match n.leftNode with
  | some ln => .ok ln
  | none => .error .storeMiss

/-- `node.getRightNode(t)` of the source. -/
def IAVLNode.getRightNode (n : IAVLNode) : Except Err IAVLNode :=
  match n.rightNode with
  | some rn => .ok rn
  | none => .error .storeMiss

/-- `node.has(t, key)` of the source: true immediately when the search key is
byte-equal to this node's key; false at a leaf; otherwise descend by strict
comparison against the separator. -/
def IAVLNode.has : IAVLNode → List Nat → Except Err Bool
  | .mk nkey _ _ h _ _ _ ln _ rn _, k =>
    if nkey == k then .ok true
    else if h == 0 then .ok false
    else if bytesCompare k nkey = .lt then
      match ln with
      | some l => l.has k
      | none => .error .storeMiss
    else
      match rn with
      | some r => r.has k
      | none => .error .storeMiss

/-- `node.calcHeightAndSize(t)` of the source: height is one more than the
larger child height; size is the sum of the child sizes. -/
def IAVLNode.calcHeightAndSize (n : IAVLNode) : Except Err IAVLNode := do
  let l ← n.getLeftNode
  let r ← n.getRightNode
  .ok (n.withHeightSize (max l.height r.height + 1) (l.size + r.size))

/-- `node.calcBalance(t)` of the source: left child height minus right child
height. -/
def IAVLNode.calcBalance (n : IAVLNode) : Except Err Int := do
  let l ← n.getLeftNode
  let r ← n.getRightNode
  .ok (l.height - r.height)

/-- `node.rotateRight(t)` of the source: copy the node and its left child,
move the left child's right subtree under the node, hang the node under the
left child (its hash slot receives the copy's nil hash), recompute height and
size bottom-up, and return the former left child.  The `removeOrphan` call on
the former left child is a no-op with the stub store. -/
def IAVLNode.rotateRight (n0 : IAVLNode) : Except Err IAVLNode := do
  let n ← n0.copyNode
  let l ← n.getLeftNode
  let lc ← l.copyNode
  let n := n.withLeft lc.rightHash lc.rightNode
  let n ← n.calcHeightAndSize
  let lc := lc.withRight n.hash (some n)
  lc.calcHeightAndSize

/-- `node.rotateLeft(t)` of the source: mirror image of `rotateRight`. -/
def IAVLNode.rotateLeft (n0 : IAVLNode) : Except Err IAVLNode := do
  let n ← n0.copyNode
  let r ← n.getRightNode
  let rc ← r.copyNode
  let n := n.withRight rc.leftHash rc.leftNode
  let n ← n.calcHeightAndSize
  let rc := rc.withLeft n.hash (some n)
  rc.calcHeightAndSize

/-- `node.balance(t)` of the source: fatal on a persisted node; right
rotation for the left-left case, a prior left rotation of the left child for
the left-right case, and mirrors on the other side; otherwise the node is
returned unchanged. -/
def IAVLNode.balance (n : IAVLNode) : Except Err IAVLNode :=
  if n.persisted then .error .persistedBalancePanic
  else do
    let bal ← n.calcBalance
    if bal > 1 then do
      let l ← n.getLeftNode
      let lbal ← l.calcBalance
      if lbal ≥ 0 then
        n.rotateRight
      else do
        let lrot ← l.rotateLeft
        (n.withLeft none (some lrot)).rotateRight
    else if bal < -1 then do
      let r ← n.getRightNode
      let rbal ← r.calcBalance
      if rbal ≤ 0 then
        n.rotateLeft
      else do
        let rrot ← r.rotateRight
        (n.withRight none (some rrot)).rotateLeft
    else .ok n

/-- `node.set(t, key, value)` of the source.  Returns the new subtree root,
whether an existing key was updated, and the orphan list.  At a leaf, a
smaller key builds an inner node whose separator is the leaf key with the
fresh leaf on the left; a larger key builds an inner node whose separator is
the new key with the fresh leaf on the right; an equal key returns a fresh
leaf and orphans the old one.  In the inner case the source appends the
current node to `orphaned` and then overwrites that very variable with the
orphan list of the recursive call (`node.leftNode, updated, orphaned = ...`),
so the appended entry is lost; the model reproduces this by returning the
recursive orphan list alone. -/
def IAVLNode.set : IAVLNode → List Nat → List Nat → Except Err (IAVLNode × Bool × List IAVLNode)
  | n@(.mk nkey _ _ h _ _ _ ln _ rn _), key, value =>
    if h == 0 then
      match bytesCompare key nkey with
      | .lt => .ok (.mk nkey [] 0 1 2 none none (some (NewIAVLNode key value))
          none (some n) false, false, [])
      | .gt => .ok (.mk key [] 0 1 2 none none (some n)
          none (some (NewIAVLNode key value)) false, false, [])
      | .eq => .ok (NewIAVLNode key value, true, [n])
    else do
      let m ← n.copyNode
      if bytesCompare key nkey = .lt then
        match ln with
        | none => .error .storeMiss
        | some l => do
          let (nl, updated, orphaned) ← l.set key value
          let m := m.withLeft none (some nl)
          if updated then .ok (m, updated, orphaned)
          else do
            let m ← m.calcHeightAndSize
            let m ← m.balance
            .ok (m, updated, orphaned)
      else
        match rn with
        | none => .error .storeMiss
        | some r => do
          let (nr, updated, orphaned) ← r.set key value
          let m := m.withRight none (some nr)
          if updated then .ok (m, updated, orphaned)
          else do
            let m ← m.calcHeightAndSize
            let m ← m.balance
            .ok (m, updated, orphaned)

/-- `node.remove(t, key)` of the source.  Returns `(newHash, newNode, newKey,
value, removed)`: at a matching leaf the subtree collapses (orphan report is
a no-op with the stub store); when a recursive removal collapses the
descended-into child, the surviving sibling is returned in place of this node
— with this node's key as `newKey` when the collapse was on the left, and
with `newKey` nil when it was on the right; otherwise the node is
copy-on-written, the child link and (on the right path) a propagated new
separator are spliced in, and height, size and balance are recomputed. -/
def IAVLNode.remove : IAVLNode → List Nat →
    Except Err (Option (List Nat) × Option IAVLNode × Option (List Nat) × Option (List Nat) × Bool)
  | n@(.mk nkey nvalue _ h _ nhash _ ln rh rn _), key =>
    if h == 0 then
      if nkey == key then .ok (none, none, none, some nvalue, true)
      else .ok (nhash, some n, none, none, false)
    else
      if bytesCompare key nkey = .lt then
        match ln with
        | none => .error .storeMiss
        | some l => do
          let (newLeftHash, newLeftNode, newKey, value, removed) ← l.remove key
          if !removed then .ok (nhash, some n, none, value, false)
          else if newLeftHash.isNone && newLeftNode.isNone then
            .ok (rh, rn, some nkey, value, true)
          else do
            let m ← n.copyNode
            let m := m.withLeft newLeftHash newLeftNode
            let m ← m.calcHeightAndSize
            let m ← m.balance
            .ok (m.hash, some m, newKey, value, true)
      else
        match rn with
        | none => .error .storeMiss
        | some r => do
          let (newRightHash, newRightNode, newKey, value, removed) ← r.remove key
          if !removed then .ok (nhash, some n, none, value, false)
          else if newRightHash.isNone && newRightNode.isNone then
            .ok (n.leftHash, n.leftNode, none, value, true)
          else do
            let m ← n.copyNode
            let m := m.withRight newRightHash newRightNode
            let m := match newKey with
              | some k => m.withKey k
              | none => m
            let m ← m.calcHeightAndSize
            let m ← m.balance
            .ok (m.hash, some m, none, value, true)

/-- `node.writeBytes(w)` of the source (the store-bytes serialization):
height, size, key (always, unlike hash-bytes), version, then the value for a
leaf or the two child hashes for an inner node; a missing child hash on an
inner node is fatal. -/
def IAVLNode.writeBytes : IAVLNode → Except Err (List Nat)
  | .mk key value version h s _ lh _ rh _ _ =>
    let header := writeInt8 h ++ writeVarint s ++ writeByteSlice key ++ writeUint64 version
    if h == 0 then .ok (header ++ writeByteSlice value)
    else
      match lh with
      | none => .error .nilHashPanic
      | some lhb =>
        match rh with
        | none => .error .nilHashPanic
        | some rhb => .ok (header ++ writeByteSlice lhb ++ writeByteSlice rhb)

/-- `node.writeHashBytes(w)` of the source (the hash-bytes serialization fed
to the digest): height and size, then for a leaf the key, value and version,
and for an inner node the two child hashes — the separator key and version
are not written.  When a child is resident its hash is (re)computed
recursively exactly as `hashWithCount` does, cached into the child and into
this node's `leftHash`/`rightHash`; a side with neither resident child nor
cached hash is fatal.  Returns the bytes, the number of nodes newly hashed,
and the node with its updated caches. -/
def IAVLNode.writeHashBytes : IAVLNode → Except Err (List Nat × Nat × IAVLNode)
  | .mk key value version h s ha lh ln rh rn p =>
    let header := writeInt8 h ++ writeVarint s
    if h == 0 then
      .ok (header ++ writeByteSlice key ++ writeByteSlice value ++ writeUint64 version, 0,
        .mk key value version h s ha lh ln rh rn p)
    else do
      let (lhb, lcount, ln2) ←
        (match ln with
        | some l =>
          match l.hash with
          | some hb => .ok (hb, 0, some l)
          | none => do
            let (bs, cnt, l2) ← l.writeHashBytes
            let hb := ripemd160 bs
            .ok (hb, cnt + 1, some (l2.withHash (some hb)))
        | none =>
          match lh with
          | some hb => .ok (hb, 0, (none : Option IAVLNode))
          | none => .error .nilHashPanic)
      let (rhb, rcount, rn2) ←
        (match rn with
        | some r =>
          match r.hash with
          | some hb => .ok (hb, 0, some r)
          | none => do
            let (bs, cnt, r2) ← r.writeHashBytes
            let hb := ripemd160 bs
            .ok (hb, cnt + 1, some (r2.withHash (some hb)))
        | none =>
          match rh with
          | some hb => .ok (hb, 0, (none : Option IAVLNode))
          | none => .error .nilHashPanic)
      .ok (header ++ writeByteSlice lhb ++ writeByteSlice rhb, lcount + rcount,
        .mk key value version h s ha (some lhb) ln2 (some rhb) rn2 p)

/-- `node.hashWithCount()` of the source: if the hash is cached return it
with count 0; otherwise digest the hash-bytes (which recursively hashes the
children), cache the result, and count this node among the newly hashed. -/
def IAVLNode.hashWithCount (n : IAVLNode) : Except Err (List Nat × Nat × IAVLNode) :=
  match n.hash with
  | some hb => .ok (hb, 0, n)
  | none => do
    let (bs, cnt, n2) ← n.writeHashBytes
    let hb := ripemd160 bs
    .ok (hb, cnt + 1, n2.withHash (some hb))

/-- The `afterStart` predicate of `traverseInRange`: no start bound, or
`start <= node.key`. -/
def afterStartB (start : Option (List Nat)) (nkey : List Nat) : Bool :=
  match start with
  | none => true
  | some s => bytesCompare s nkey ≠ .gt

/-- The `beforeEnd` predicate of `traverseInRange`: no end bound, or
`node.key < end` (`<=` when inclusive). -/
def beforeEndB (e : Option (List Nat)) (inclusive : Bool) (nkey : List Nat) : Bool :=
  match e with
  | none => true
  | some eb => if inclusive then bytesCompare nkey eb ≠ .gt else bytesCompare nkey eb = .lt

mutual

/-- Descent of `traverseInRange` into a child slot: the resident child if
present (the `getLeftNode`/`getRightNode` step), otherwise the stub store
refuses the lookup. -/
def traverseChild : Option IAVLNode → Option (List Nat) → Option (List Nat) → Bool → Bool →
    (IAVLNode → Bool) → Except Err (List IAVLNode × Bool)
  | some c, start, e, ascending, inclusive, cb =>
    c.traverseInRange start e ascending inclusive cb
  | none, _, _, _, _, _ => .error .storeMiss

/-- `node.traverseInRange(t, start, end, ascending, inclusive, cb)` of the
source, with a pure callback.  The result collects, in invocation order, the
nodes on which the callback was invoked, together with the final stop flag:
the callback fires exactly when `afterStart` and `beforeEnd` both hold; a
leaf ends the descent; ascending order recurses left (only if `afterStart`)
then right (only if `beforeEnd`), descending order the mirror; a callback
returning stop short-circuits all remaining recursion. -/
def IAVLNode.traverseInRange :
    IAVLNode → Option (List Nat) → Option (List Nat) → Bool → Bool →
    (IAVLNode → Bool) → Except Err (List IAVLNode × Bool)
  | n@(.mk nkey _ _ h _ _ _ ln _ rn _), start, e, ascending, inclusive, cb =>
    let visit := afterStartB start nkey && beforeEndB e inclusive nkey
    let vis := if visit then [n] else []
    let stop1 := if visit then cb n else false
    if stop1 then .ok (vis, true)
    else if h == 0 then .ok (vis, false)
    else if ascending then do
      let (vis1, s1) ←
        if afterStartB start nkey then traverseChild ln start e ascending inclusive cb
        else .ok ([], false)
      if s1 then .ok (vis ++ vis1, true)
      else do
        let (vis2, s2) ←
          if beforeEndB e inclusive nkey then traverseChild rn start e ascending inclusive cb
          else .ok ([], false)
        .ok (vis ++ vis1 ++ vis2, s2)
    else do
      let (vis1, s1) ←
        if beforeEndB e inclusive nkey then traverseChild rn start e ascending inclusive cb
        else .ok ([], false)
      if s1 then .ok (vis ++ vis1, true)
      else do
        let (vis2, s2) ←
          if afterStartB start nkey then traverseChild ln start e ascending inclusive cb
          else .ok ([], false)
        .ok (vis ++ vis1 ++ vis2, s2)

end

/-- `node.traverse(t, ascending, cb)` of the source: `traverseInRange` over
the whole tree (no bounds, exclusive). -/
def IAVLNode.traverse (n : IAVLNode) (ascending : Bool) (cb : IAVLNode → Bool) :
    Except Err (List IAVLNode × Bool) :=
  n.traverseInRange none none ascending false cb

/-- Modelled from the spec: the tree façade's `set` (scenario S1 — a set on
the empty tree yields a single fresh leaf with no orphans); a non-empty root
delegates to the node-level `set`. -/
def treeSet (root : Option IAVLNode) (key value : List Nat) :
    Except Err (IAVLNode × Bool × List IAVLNode) :=
  match root with
  | none => .ok (NewIAVLNode key value, false, [])
  | some n => n.set key value

/-- A sequence of façade-level inserts applied left to right, discarding the
`updated` flags and orphan lists. -/
def treeSetSeq (root : Option IAVLNode) : List (List Nat × List Nat) → Except Err (Option IAVLNode)
  | [] => .ok root
  | (k, v) :: rest => do
    let (n, _, _) ← treeSet root k v
    treeSetSeq (some n) rest

/-- The in-order sequence of `(key, value)` pairs at the resident leaves of a
subtree (a missing child contributes nothing). -/
def leafEntries : IAVLNode → List (List Nat × List Nat)
  | .mk k v _ h _ _ _ ln _ rn _ =>
    if h == 0 then [(k, v)]
    else
      (match ln with | some l => leafEntries l | none => [])
        ++ (match rn with | some r => leafEntries r | none => [])

/-- The in-order sequence of keys at the resident leaves of a subtree. -/
def leafKeys : IAVLNode → List (List Nat)
  | .mk k _ _ h _ _ _ ln _ rn _ =>
    if h == 0 then [k]
    else
      (match ln with | some l => leafKeys l | none => [])
        ++ (match rn with | some r => leafKeys r | none => [])

/-- The key of the leftmost resident descendant leaf (the source's `lmd`),
or `none` when the descent hits a non-resident child. -/
def lmdKey : IAVLNode → Option (List Nat)
  | .mk k _ _ h _ _ _ ln _ _ _ =>
    if h == 0 then some k
    else
      match ln with
      | some l => lmdKey l
      | none => none

/-- The separator invariant of the data model: every inner node is resident
on both sides and its key is the smallest (leftmost) leaf key of its right
subtree. -/
def sepOk : IAVLNode → Bool
  | .mk k _ _ h _ _ _ ln _ rn _ =>
    if h == 0 then true
    else
      match ln, rn with
      | some l, some r => (lmdKey r == some k) && sepOk l && sepOk r
      | _, _ => false

/-- Erase the attributes that the store-bytes round trip does not preserve:
the cached hash, the persisted flag, and the resident child references. -/
def stripVolatile : IAVLNode → IAVLNode
  | .mk k v ver h s _ lh _ rh _ _ => .mk k v ver h s none lh none rh none false

/-- Attribute-wise equality of two nodes on every field except `hash` and
`persisted` (resident children are compared structurally). -/
def eqExceptHashPersisted : IAVLNode → IAVLNode → Bool
  | .mk k v ver h s _ lh l rh r _, .mk k' v' ver' h' s' _ lh' l' rh' r' _ =>
    k == k' && v == v' && ver == ver' && h == h' && s == s'
    && lh == lh' && rh == rh'
    && (match l, l' with
        | none, none => true
        | some a, some b => nodeBEq a b
        | _, _ => false)
    && (match r, r' with
        | none, none => true
        | some a, some b => nodeBEq a b
        | _, _ => false)

/-- A node whose store-bytes encoding is defined and decodes back to it:
the height fits in `int8`, the version fits in 64 bits, a leaf has no child
hashes, and an inner node has both child hashes and a nil value. -/
def storable : IAVLNode → Bool
  | .mk _ v ver h _ _ lh _ rh _ _ =>
    decide (-128 ≤ h) && decide (h ≤ 127) && decide (ver < 2 ^ 64)
    && (if h == 0 then lh.isNone && rh.isNone
        else lh.isSome && rh.isSome && v.isEmpty)

/-- Inputs on which `MakeIAVLNode` faults inside the version read: the
header parses up to the key, but fewer than eight bytes remain for the
fixed-width version field. -/
def versionShort (buf : List Nat) : Bool :=
  match buf with
  | [] => false
  | _ :: buf1 =>
    match getVarint buf1 with
    | none => false
    | some (_, n1) =>
      match getByteSlice (buf1.drop n1) with
      | none => false
      | some (_, n2) => decide (((buf1.drop n1).drop n2).length < 8)

/-- The root hash computed by `hashWithCount`, when the computation does not
fault. -/
def rootHashDigest (n : IAVLNode) : Option (List Nat) :=
  match n.hashWithCount with
  | .ok x => some x.1
  | .error _ => none

/-- Scenario S2 fixture: the persisted leaf `("a", "1")`. -/
def s2LeafA : IAVLNode := .mk [97] [49] 0 0 1 none none none none none true

/-- Scenario S2 fixture: the persisted leaf `("b", "2")`. -/
def s2LeafB : IAVLNode := .mk [98] [50] 0 0 1 none none none none none true

/-- Scenario S2 fixture: the persisted two-key tree with separator `"b"`,
left leaf `("a","1")` and right leaf `("b","2")`. -/
def s2Root : IAVLNode :=
  .mk [98] [] 0 1 2 none none (some s2LeafA) none (some s2LeafB) true

/-- The tree produced by inserting `"c"`, `"b"`, `"a"` (values `"3"`, `"2"`,
`"1"`) in order into an empty tree: separator `"c"` at the root, an inner
node with separator `"b"` over the leaves `"a"` and `"b"` on the left, and
the leaf `"c"` on the right. -/
def cbaTree : IAVLNode :=
  .mk [99] [] 0 2 3 none none
    (some (.mk [98] [] 0 1 2 none none
      (some (.mk [97] [49] 0 0 1 none none none none none false))
      none
      (some (.mk [98] [50] 0 0 1 none none none none none false)) false))
    none (some (.mk [99] [51] 0 0 1 none none none none none false)) false

/-- The tree left after removing `"a"` from `cbaTree`: a single inner node
with separator `"c"`, left leaf `"b"`, right leaf `"c"`, size 2, height 1. -/
def cbaMinusA : IAVLNode :=
  .mk [99] [] 0 1 2 none none
    (some (.mk [98] [50] 0 0 1 none none none none none false))
    none (some (.mk [99] [51] 0 0 1 none none none none none false)) false

/-- The tree produced by inserting `"a"`, `"b"`, `"c"` (values `"1"`, `"2"`,
`"3"`) in order into an empty tree. -/
def abcTree : IAVLNode :=
  .mk [98] [] 0 2 3 none none
    (some (.mk [97] [49] 0 0 1 none none none none none false))
    none
    (some (.mk [99] [] 0 1 2 none none
      (some (.mk [98] [50] 0 0 1 none none none none none false))
      none
      (some (.mk [99] [51] 0 0 1 none none none none none false)) false)) false

/-- An inner node carrying both child hashes and both resident children,
used to exhibit what the store-bytes round trip forgets. -/
def residentInner : IAVLNode :=
  .mk [98] [] 0 1 2 none (some [7]) (some (NewIAVLNode [97] [49])) (some [9])
    (some (NewIAVLNode [98] [50])) false

/-- The number of resident nodes of a subtree, used as an induction measure
for theorems about the recursive operations. -/
def nodeCount : IAVLNode → Nat
  | .mk _ _ _ _ _ _ _ l _ r _ =>
    1 + (match l with | none => 0 | some lc => nodeCount lc)
      + (match r with | none => 0 | some rc => nodeCount rc)

/-- Shape of a traversal's invocation list relative to its stop flag: when
the traversal reports a stop, the list is some prefix of non-stopping
invocations followed by the single invocation that returned stop and
short-circuited the rest; otherwise no invocation returned stop. -/
def stopShape (cb : IAVLNode → Bool) (l : List IAVLNode) (st : Bool) : Prop :=
  if st then ∃ l2 z, l = l2 ++ [z] ∧ (∀ m ∈ l2, cb m = false) ∧ cb z = true
  else ∀ m ∈ l, cb m = false

/-- An inner-shaped node with no resident children and no cached child
hashes: any operation that tried to load a child on it would fail with
`storeMiss`. -/
def bareInner : IAVLNode := .mk [98] [] 0 1 2 none none none none none false

theorem getLeb128_leb128Aux (fuel : Nat) : ∀ (n : Nat), n ≤ fuel → ∀ (t : List Nat),
    getLeb128 (leb128Aux fuel n ++ t) = some (n, (leb128Aux fuel n).length) := by
  induction fuel with
  | zero =>
    intro n hn t
    have : n = 0 := by omega
    subst this
    simp [leb128Aux, getLeb128]
  | succ fuel ih =>
    intro n hn t
    by_cases h : n < 128
    · simp [leb128Aux, h, getLeb128]
    · have h2 : n / 128 ≤ fuel := by omega
      simp only [leb128Aux, if_neg h, List.cons_append, getLeb128]
      rw [ih (n / 128) h2 t]
      simp only [List.length_cons]
      have hb : ¬ (n % 128 + 128 < 128) := by omega
      simp [hb]
      omega

theorem unzigzag_zigzag (i : Int) : unzigzag (zigzag i) = i := by
  unfold zigzag unzigzag
  by_cases h : 0 ≤ i
  · simp only [if_pos h]
    have h2 : (2 * i).toNat % 2 = 0 := by omega
    simp [h2]
    omega
  · simp only [if_neg h]
    have h2 : ¬ ((-(2 * i) - 1).toNat % 2 = 0) := by omega
    simp [h2]
    omega

theorem getVarint_writeVarint (i : Int) (t : List Nat) :
    getVarint (writeVarint i ++ t) = some (i, (writeVarint i).length) := by
  unfold getVarint writeVarint leb128
  rw [getLeb128_leb128Aux _ _ le_rfl]
  simp [unzigzag_zigzag]

theorem getByteSlice_writeByteSlice (bs t : List Nat) :
    getByteSlice (writeByteSlice bs ++ t) = some (bs, (writeByteSlice bs).length) := by
  unfold getByteSlice writeByteSlice
  rw [List.append_assoc, getVarint_writeVarint]
  have h0 : ¬ ((bs.length : Int) < 0) := by omega
  simp only [h0, if_neg, List.drop_left]
  have h1 : (bs.length : Int).toNat = bs.length := by omega
  have h2 : ¬ ((bs ++ t).length < bs.length) := by simp
  simp [h1, h2, List.take_left]

theorem getUint64_writeUint64 (v : Nat) (hv : v < 2 ^ 64) (t : List Nat) :
    getUint64 (writeUint64 v ++ t) = some (v, t) := by
  simp only [writeUint64, List.cons_append, List.nil_append, getUint64, Option.some.injEq,
    Prod.mk.injEq]
  constructor
  · omega
  · trivial

theorem readInt8_writeInt8 (h : Int) (h1 : -128 ≤ h) (h2 : h ≤ 127) :
    readInt8 ((h % 256).toNat) = h := by
  unfold readInt8
  split <;> omega

theorem getUint64_eq_none_iff (xs : List Nat) : getUint64 xs = none ↔ xs.length < 8 := by
  rcases xs with _ | ⟨b0, _ | ⟨b1, _ | ⟨b2, _ | ⟨b3, _ | ⟨b4, _ | ⟨b5, _ | ⟨b6, _ | ⟨b7, rest⟩⟩⟩⟩⟩⟩⟩⟩ <;>
    simp [getUint64]

theorem bind_ne_err {α β : Type} {e : Except Err α} {f : α → Except Err β} {x : Err}
    (h1 : e ≠ .error x) (h2 : ∀ a, e = .ok a → f a ≠ .error x) :
    (e >>= f) ≠ .error x := by
  cases e with
  | error e2 => simpa [Bind.bind, Except.bind] using h1
  | ok a => simpa [Bind.bind, Except.bind] using h2 a rfl

theorem persisted_withLeft (n : IAVLNode) (x : Option (List Nat)) (y : Option IAVLNode) :
    (n.withLeft x y).persisted = n.persisted := by
  cases n
  rfl

theorem persisted_withRight (n : IAVLNode) (x : Option (List Nat)) (y : Option IAVLNode) :
    (n.withRight x y).persisted = n.persisted := by
  cases n
  rfl

theorem persisted_withKey (n : IAVLNode) (k : List Nat) :
    (n.withKey k).persisted = n.persisted := by
  cases n
  rfl

theorem persisted_withHeightSize (n : IAVLNode) (h s : Int) :
    (n.withHeightSize h s).persisted = n.persisted := by
  cases n
  rfl

theorem copyNode_ok_persisted {n m : IAVLNode} (h : n.copyNode = .ok m) :
    m.persisted = false := by
  cases n with
  | mk k v ver hh s ha lh l rh r p =>
    simp only [IAVLNode.copyNode] at h
    split at h
    · exact absurd h (by simp)
    · simp only [Except.ok.injEq] at h
      subst h
      rfl

theorem calcHS_ok_persisted {n m : IAVLNode} (h : n.calcHeightAndSize = .ok m) :
    m.persisted = n.persisted := by
  unfold IAVLNode.calcHeightAndSize at h
  rcases hl : n.getLeftNode with eL | l <;> rw [hl] at h
  · simp [Bind.bind, Except.bind] at h
  · rcases hr : n.getRightNode with eR | r <;> rw [hr] at h
    · simp [Bind.bind, Except.bind] at h
    · simp only [Bind.bind, Except.bind, Except.ok.injEq] at h
      subst h
      exact persisted_withHeightSize n _ _

theorem copyNode_ne_pbp (n : IAVLNode) : n.copyNode ≠ .error .persistedBalancePanic := by
  cases n with
  | mk k v ver hh s ha lh l rh r p =>
    simp only [IAVLNode.copyNode]
    split <;> simp

theorem getLeftNode_ne_pbp (n : IAVLNode) : n.getLeftNode ≠ .error .persistedBalancePanic := by
  unfold IAVLNode.getLeftNode
  rcases n.leftNode with _ | l <;> simp

theorem getRightNode_ne_pbp (n : IAVLNode) : n.getRightNode ≠ .error .persistedBalancePanic := by
  unfold IAVLNode.getRightNode
  rcases n.rightNode with _ | r <;> simp

theorem calcHS_ne_pbp (n : IAVLNode) :
    n.calcHeightAndSize ≠ .error .persistedBalancePanic := by
  unfold IAVLNode.calcHeightAndSize
  refine bind_ne_err (getLeftNode_ne_pbp _) ?_
  intro a _
  refine bind_ne_err (getRightNode_ne_pbp _) ?_
  intro b _
  simp

theorem calcBalance_ne_pbp (n : IAVLNode) :
    n.calcBalance ≠ .error .persistedBalancePanic := by
  unfold IAVLNode.calcBalance
  refine bind_ne_err (getLeftNode_ne_pbp _) ?_
  intro a _
  refine bind_ne_err (getRightNode_ne_pbp _) ?_
  intro b _
  simp

theorem rotateRight_ne_pbp (n : IAVLNode) : n.rotateRight ≠ .error .persistedBalancePanic := by
  unfold IAVLNode.rotateRight
  refine bind_ne_err (copyNode_ne_pbp _) ?_
  intro a _
  refine bind_ne_err (getLeftNode_ne_pbp _) ?_
  intro b _
  refine bind_ne_err (copyNode_ne_pbp _) ?_
  intro c _
  refine bind_ne_err (calcHS_ne_pbp _) ?_
  intro d _
  exact calcHS_ne_pbp _

theorem rotateLeft_ne_pbp (n : IAVLNode) : n.rotateLeft ≠ .error .persistedBalancePanic := by
  unfold IAVLNode.rotateLeft
  refine bind_ne_err (copyNode_ne_pbp _) ?_
  intro a _
  refine bind_ne_err (getRightNode_ne_pbp _) ?_
  intro b _
  refine bind_ne_err (copyNode_ne_pbp _) ?_
  intro c _
  refine bind_ne_err (calcHS_ne_pbp _) ?_
  intro d _
  exact calcHS_ne_pbp _

theorem balance_ne_pbp {n : IAVLNode} (hp : n.persisted = false) :
    n.balance ≠ .error .persistedBalancePanic := by
  unfold IAVLNode.balance
  rw [hp]
  simp only [Bool.false_eq_true, if_false]
  refine bind_ne_err (calcBalance_ne_pbp _) ?_
  intro bal _
  split
  · refine bind_ne_err (getLeftNode_ne_pbp _) ?_
    intro l _
    refine bind_ne_err (calcBalance_ne_pbp _) ?_
    intro lbal _
    split
    · exact rotateRight_ne_pbp _
    · refine bind_ne_err (rotateLeft_ne_pbp _) ?_
      intro lrot _
      exact rotateRight_ne_pbp _
  · split
    · refine bind_ne_err (getRightNode_ne_pbp _) ?_
      intro r _
      refine bind_ne_err (calcBalance_ne_pbp _) ?_
      intro rbal _
      split
      · exact rotateLeft_ne_pbp _
      · refine bind_ne_err (rotateRight_ne_pbp _) ?_
        intro rrot _
        exact rotateLeft_ne_pbp _
    · simp

theorem nodeCount_pos (n : IAVLNode) : 1 ≤ nodeCount n := by
  cases n with
  | mk k v ver hh s ha lh l rh r p =>
    rcases l with _ | lc <;> rcases r with _ | rc <;> simp [nodeCount] <;> omega

theorem nodeCount_left {k v : List Nat} {ver : Nat} {hh s : Int}
    {ha lh rh : Option (List Nat)} {lc : IAVLNode} {r : Option IAVLNode} {p : Bool} :
    nodeCount lc < nodeCount (.mk k v ver hh s ha lh (some lc) rh r p) := by
  rcases r with _ | rc <;> (simp [nodeCount]; try omega)

theorem nodeCount_right {k v : List Nat} {ver : Nat} {hh s : Int}
    {ha lh rh : Option (List Nat)} {l : Option IAVLNode} {rc : IAVLNode} {p : Bool} :
    nodeCount rc < nodeCount (.mk k v ver hh s ha lh l rh (some rc) p) := by
  rcases l with _ | lc <;> (simp [nodeCount]; try omega)

theorem set_ne_pbp (n0 : IAVLNode) (k0 v0 : List Nat) :
    n0.set k0 v0 ≠ .error .persistedBalancePanic := by
  suffices H : ∀ (N : Nat) (n : IAVLNode) (k v : List Nat), nodeCount n ≤ N →
      n.set k v ≠ .error .persistedBalancePanic from H (nodeCount n0) n0 k0 v0 le_rfl
  intro N
  induction N with
  | zero =>
    intro n k v hle
    have := nodeCount_pos n
    omega
  | succ N IH =>
    intro n k v hle
    cases n with
    | mk nk nv ver hh s ha lh l rh r p =>
      rcases l with _ | lc <;> rcases r with _ | rc <;> simp only [IAVLNode.set] <;> split
      · split <;> simp
      · refine bind_ne_err (copyNode_ne_pbp _) ?_
        intro m hcopy
        split <;> simp
      · split <;> simp
      · refine bind_ne_err (copyNode_ne_pbp _) ?_
        intro m hcopy
        split
        · simp
        · refine bind_ne_err (IH rc k v ?_) ?_
          · have := @nodeCount_right nk nv ver hh s ha lh rh none rc p
            omega
          · rintro ⟨nr, updated, orphaned⟩ _
            split
            · simp
            · refine bind_ne_err (calcHS_ne_pbp _) ?_
              intro m2 hm2
              refine bind_ne_err (balance_ne_pbp ?_) ?_
              · rw [calcHS_ok_persisted hm2, persisted_withRight,
                  copyNode_ok_persisted hcopy]
              · intro m3 _
                simp
      · split <;> simp
      · refine bind_ne_err (copyNode_ne_pbp _) ?_
        intro m hcopy
        split
        · refine bind_ne_err (IH lc k v ?_) ?_
          · have := @nodeCount_left nk nv ver hh s ha lh rh lc none p
            omega
          · rintro ⟨nl, updated, orphaned⟩ _
            split
            · simp
            · refine bind_ne_err (calcHS_ne_pbp _) ?_
              intro m2 hm2
              refine bind_ne_err (balance_ne_pbp ?_) ?_
              · rw [calcHS_ok_persisted hm2, persisted_withLeft,
                  copyNode_ok_persisted hcopy]
              · intro m3 _
                simp
        · simp
      · split <;> simp
      · refine bind_ne_err (copyNode_ne_pbp _) ?_
        intro m hcopy
        split
        · refine bind_ne_err (IH lc k v ?_) ?_
          · have := @nodeCount_left nk nv ver hh s ha lh rh lc (some rc) p
            omega
          · rintro ⟨nl, updated, orphaned⟩ _
            split
            · simp
            · refine bind_ne_err (calcHS_ne_pbp _) ?_
              intro m2 hm2
              refine bind_ne_err (balance_ne_pbp ?_) ?_
              · rw [calcHS_ok_persisted hm2, persisted_withLeft,
                  copyNode_ok_persisted hcopy]
              · intro m3 _
                simp
        · refine bind_ne_err (IH rc k v ?_) ?_
          · have := @nodeCount_right nk nv ver hh s ha lh rh (some lc) rc p
            omega
          · rintro ⟨nr, updated, orphaned⟩ _
            split
            · simp
            · refine bind_ne_err (calcHS_ne_pbp _) ?_
              intro m2 hm2
              refine bind_ne_err (balance_ne_pbp ?_) ?_
              · rw [calcHS_ok_persisted hm2, persisted_withRight,
                  copyNode_ok_persisted hcopy]
              · intro m3 _
                simp

theorem remove_ne_pbp (n0 : IAVLNode) (k0 : List Nat) :
    n0.remove k0 ≠ .error .persistedBalancePanic := by
  suffices H : ∀ (N : Nat) (n : IAVLNode) (k : List Nat), nodeCount n ≤ N →
      n.remove k ≠ .error .persistedBalancePanic from H (nodeCount n0) n0 k0 le_rfl
  intro N
  induction N with
  | zero =>
    intro n k hle
    have := nodeCount_pos n
    omega
  | succ N IH =>
    intro n k hle
    cases n with
    | mk nk nv ver hh s ha lh l rh r p =>
      rcases l with _ | lc <;> rcases r with _ | rc <;> simp only [IAVLNode.remove] <;> split
      · split <;> simp
      · split <;> simp
      · split <;> simp
      · split
        · simp
        · refine bind_ne_err (IH rc k ?_) ?_
          · have := @nodeCount_right nk nv ver hh s ha lh rh none rc p
            omega
          · rintro ⟨nrh, nrn, nk2, val, removed⟩ _
            split
            · simp
            · split
              · simp
              · refine bind_ne_err (copyNode_ne_pbp _) ?_
                intro m hcopy
                refine bind_ne_err (calcHS_ne_pbp _) ?_
                intro m2 hm2
                refine bind_ne_err (balance_ne_pbp ?_) ?_
                · rw [calcHS_ok_persisted hm2]
                  rcases nk2 with _ | nk3 <;>
                    simp [persisted_withKey, persisted_withRight, copyNode_ok_persisted hcopy]
                · intro m3 _
                  simp
      · split <;> simp
      · split
        · refine bind_ne_err (IH lc k ?_) ?_
          · have := @nodeCount_left nk nv ver hh s ha lh rh lc none p
            omega
          · rintro ⟨nlh, nln, nk2, val, removed⟩ _
            split
            · simp
            · split
              · simp
              · refine bind_ne_err (copyNode_ne_pbp _) ?_
                intro m hcopy
                refine bind_ne_err (calcHS_ne_pbp _) ?_
                intro m2 hm2
                refine bind_ne_err (balance_ne_pbp ?_) ?_
                · rw [calcHS_ok_persisted hm2, persisted_withLeft,
                    copyNode_ok_persisted hcopy]
                · intro m3 _
                  simp
        · simp
      · split <;> simp
      · split
        · refine bind_ne_err (IH lc k ?_) ?_
          · have := @nodeCount_left nk nv ver hh s ha lh rh lc (some rc) p
            omega
          · rintro ⟨nlh, nln, nk2, val, removed⟩ _
            split
            · simp
            · split
              · simp
              · refine bind_ne_err (copyNode_ne_pbp _) ?_
                intro m hcopy
                refine bind_ne_err (calcHS_ne_pbp _) ?_
                intro m2 hm2
                refine bind_ne_err (balance_ne_pbp ?_) ?_
                · rw [calcHS_ok_persisted hm2, persisted_withLeft,
                    copyNode_ok_persisted hcopy]
                · intro m3 _
                  simp
        · refine bind_ne_err (IH rc k ?_) ?_
          · have := @nodeCount_right nk nv ver hh s ha lh rh (some lc) rc p
            omega
          · rintro ⟨nrh, nrn, nk2, val, removed⟩ _
            split
            · simp
            · split
              · simp
              · refine bind_ne_err (copyNode_ne_pbp _) ?_
                intro m hcopy
                refine bind_ne_err (calcHS_ne_pbp _) ?_
                intro m2 hm2
                refine bind_ne_err (balance_ne_pbp ?_) ?_
                · rw [calcHS_ok_persisted hm2]
                  rcases nk2 with _ | nk3 <;>
                    simp [persisted_withKey, persisted_withRight, copyNode_ok_persisted hcopy]
                · intro m3 _
                  simp

theorem writeHashBytes_key_version_indep (n : IAVLNode) (k2 : List Nat) (v2 : Nat)
    (h : n.height ≠ 0) :
    (((n.withKey k2).withVersion v2).writeHashBytes).map (fun x => (x.1, x.2.1))
      = (n.writeHashBytes).map (fun x => (x.1, x.2.1)) := by
  cases n with
  | mk k v ver hh s ha lh l rh r p =>
    have hbeq : (hh == 0) = false := by
      simp only [IAVLNode.height] at h
      simpa using h
    simp only [IAVLNode.withKey, IAVLNode.withVersion]
    rcases l with _ | lc <;> rcases r with _ | rc <;>
      rcases lh with _ | lhb <;> rcases rh with _ | rhb
    all_goals try rcases hlc : lc.hash with _ | lcb
    all_goals try rcases hrc : rc.hash with _ | rcb
    all_goals try rcases hLres : lc.writeHashBytes with ⟨eL⟩ | ⟨⟨bsL, cntL, lc2⟩⟩
    all_goals try rcases hRres : rc.writeHashBytes with ⟨eR⟩ | ⟨⟨bsR, cntR, rc2⟩⟩
    all_goals simp [IAVLNode.writeHashBytes, hbeq, Bind.bind, Except.bind, Except.map, *]

theorem writeHashBytes_leaf (k v : List Nat) (ver : Nat) (s : Int) (ha : Option (List Nat))
    (p : Bool) :
    (IAVLNode.mk k v ver 0 s ha none none none none p).writeHashBytes =
      .ok (writeInt8 0 ++ writeVarint s ++ writeByteSlice k ++ writeByteSlice v
        ++ writeUint64 ver, 0, IAVLNode.mk k v ver 0 s ha none none none none p) := by
  simp [IAVLNode.writeHashBytes]

theorem writeHashBytes_inner_frozen (k v : List Nat) (ver : Nat) (h s : Int)
    (ha : Option (List Nat)) (lhb rhb : List Nat) (p : Bool) (hne : h ≠ 0) :
    (IAVLNode.mk k v ver h s ha (some lhb) none (some rhb) none p).writeHashBytes =
      .ok (writeInt8 h ++ writeVarint s ++ writeByteSlice lhb ++ writeByteSlice rhb, 0,
        IAVLNode.mk k v ver h s ha (some lhb) none (some rhb) none p) := by
  have hbeq : (h == 0) = false := by simpa using hne
  simp [IAVLNode.writeHashBytes, hbeq, Bind.bind, Except.bind]

theorem writeHashBytes_leaf_version_inj (k v : List Nat) (s : Int) (ha : Option (List Nat))
    (p : Bool) (ver1 ver2 : Nat) (h1 : ver1 < 2 ^ 64) (h2 : ver2 < 2 ^ 64)
    (hne : ver1 ≠ ver2) :
    (IAVLNode.mk k v ver1 0 s ha none none none none p).writeHashBytes ≠
      (IAVLNode.mk k v ver2 0 s ha none none none none p).writeHashBytes := by
  rw [writeHashBytes_leaf, writeHashBytes_leaf]
  intro heq
  simp only [Except.ok.injEq, Prod.mk.injEq, List.append_assoc] at heq
  have hu : writeUint64 ver1 = writeUint64 ver2 := by
    have := heq.1
    exact List.append_cancel_left (List.append_cancel_left (List.append_cancel_left
      (List.append_cancel_left this)))
  have e1 := getUint64_writeUint64 ver1 h1 []
  have e2 := getUint64_writeUint64 ver2 h2 []
  rw [hu] at e1
  rw [e2] at e1
  simp at e1
  exact hne e1.symm

theorem all_mem_append {α : Type} {P : α → Prop} {a b : List α}
    (ha : ∀ m ∈ a, P m) (hb : ∀ m ∈ b, P m) : ∀ m ∈ a ++ b, P m := by
  intro m hm
  rcases List.mem_append.1 hm with h | h
  · exact ha m h
  · exact hb m h

theorem stopShape_append {cb : IAVLNode → Bool} {a b : List IAVLNode} {s : Bool}
    (ha : ∀ m ∈ a, cb m = false) (hb : stopShape cb b s) : stopShape cb (a ++ b) s := by
  cases s with
  | true =>
    simp only [stopShape, if_true] at hb ⊢
    obtain ⟨l2, z, hz, hall, hcbz⟩ := hb
    exact ⟨a ++ l2, z, by rw [hz, List.append_assoc], all_mem_append ha hall, hcbz⟩
  | false =>
    simp only [stopShape, Bool.false_eq_true, if_false] at hb ⊢
    exact all_mem_append ha hb

theorem nodeCount_children_le {nk nv : List Nat} {ver : Nat} {hh s : Int}
    {ha lh rh : Option (List Nat)} {ln rn : Option IAVLNode} {p : Bool} {N : Nat}
    (h : nodeCount (.mk nk nv ver hh s ha lh ln rh rn p) ≤ N + 1) :
    (∀ c, ln = some c → nodeCount c ≤ N) ∧ (∀ c, rn = some c → nodeCount c ≤ N) := by
  constructor
  · rintro c rfl
    have := @nodeCount_left nk nv ver hh s ha lh rh c rn p
    omega
  · rintro c rfl
    have := @nodeCount_right nk nv ver hh s ha lh rh ln c p
    omega

theorem childOk {N : Nat}
    (IH : ∀ (n : IAVLNode) (start e : Option (List Nat)) (asc incl : Bool)
      (cb : IAVLNode → Bool) (l : List IAVLNode) (st : Bool), nodeCount n ≤ N →
      n.traverseInRange start e asc incl cb = .ok (l, st) →
      (∀ m ∈ l, (afterStartB start m.key && beforeEndB e incl m.key) = true)
        ∧ stopShape cb l st)
    {copt : Option IAVLNode} {start e : Option (List Nat)} {asc incl : Bool}
    {cb : IAVLNode → Bool} {vis1 : List IAVLNode} {s1 : Bool}
    (hcN : ∀ c, copt = some c → nodeCount c ≤ N)
    (h : traverseChild copt start e asc incl cb = .ok (vis1, s1)) :
    (∀ m ∈ vis1, (afterStartB start m.key && beforeEndB e incl m.key) = true)
      ∧ stopShape cb vis1 s1 := by
  cases copt with
  | none => rw [traverseChild] at h; exact absurd h (by simp)
  | some c =>
    rw [traverseChild] at h
    exact IH c start e asc incl cb vis1 s1 (hcN c rfl) h

theorem traverseInRange_spec :
    ∀ (N : Nat) (n : IAVLNode) (start e : Option (List Nat)) (asc incl : Bool)
      (cb : IAVLNode → Bool) (l : List IAVLNode) (st : Bool), nodeCount n ≤ N →
      n.traverseInRange start e asc incl cb = .ok (l, st) →
      (∀ m ∈ l, (afterStartB start m.key && beforeEndB e incl m.key) = true)
        ∧ stopShape cb l st := by
  intro N
  induction N with
  | zero =>
    intro n _ _ _ _ _ _ _ hle _
    have := nodeCount_pos n
    omega
  | succ N IH =>
    intro n start e asc incl cb l st hle h
    cases n with
    | mk nk nv ver hh s ha lh ln rh rn p =>
      obtain ⟨hcl, hcr⟩ := nodeCount_children_le hle
      rw [IAVLNode.traverseInRange] at h
      cases hg1 : afterStartB start nk <;> cases hg2 : beforeEndB e incl nk <;>
        simp only [hg1, hg2, Bool.and_true, Bool.and_false, Bool.true_and, Bool.false_and,
          Bool.and_self, if_true, if_false, Bool.false_eq_true, Bind.bind, Except.bind,
          List.nil_append, List.append_nil] at h
      -- (false, false): neither side of the range: nothing is visited either way
      · split at h
        · simp only [Except.ok.injEq, Prod.mk.injEq] at h
          obtain ⟨h1, h2⟩ := h
          subst h1 h2
          exact ⟨by simp, by simp [stopShape]⟩
        · split at h <;>
          · simp only [Except.ok.injEq, Prod.mk.injEq] at h
            obtain ⟨h1, h2⟩ := h
            subst h1 h2
            exact ⟨by simp, by simp [stopShape]⟩
      -- (false, true): only the end-side guard holds
      · split at h
        · simp only [Except.ok.injEq, Prod.mk.injEq] at h
          obtain ⟨h1, h2⟩ := h
          subst h1 h2
          exact ⟨by simp, by simp [stopShape]⟩
        · split at h
          · -- ascending: left skipped, right traversed
            rcases hs2 : traverseChild rn start e asc incl cb with e2 | ⟨vis2, s2⟩ <;>
              rw [hs2] at h
            · simp at h
            · obtain ⟨hp2, hsh2⟩ := childOk IH hcr hs2
              simp only [Except.ok.injEq, Prod.mk.injEq] at h
              obtain ⟨h1, h2⟩ := h
              subst h1 h2
              exact ⟨hp2, hsh2⟩
          · -- descending: right traversed first
            rcases hs2 : traverseChild rn start e asc incl cb with e2 | ⟨vis2, s2⟩ <;>
              rw [hs2] at h
            · simp at h
            · obtain ⟨hp2, hsh2⟩ := childOk IH hcr hs2
              cases s2 with
              | true =>
                simp only [if_true, Except.ok.injEq, Prod.mk.injEq] at h
                obtain ⟨h1, h2⟩ := h
                subst h1 h2
                exact ⟨hp2, hsh2⟩
              | false =>
                simp only [Bool.false_eq_true, if_false, Except.ok.injEq, Prod.mk.injEq,
                  List.append_nil] at h
                obtain ⟨h1, h2⟩ := h
                subst h1 h2
                exact ⟨hp2, hsh2⟩
      -- (true, false): only the start-side guard holds
      · split at h
        · simp only [Except.ok.injEq, Prod.mk.injEq] at h
          obtain ⟨h1, h2⟩ := h
          subst h1 h2
          exact ⟨by simp, by simp [stopShape]⟩
        · split at h
          · -- ascending: left traversed, right skipped
            rcases hs1 : traverseChild ln start e asc incl cb with e1 | ⟨vis1, s1⟩ <;>
              rw [hs1] at h
            · simp at h
            · obtain ⟨hp1, hsh1⟩ := childOk IH hcl hs1
              cases s1 with
              | true =>
                simp only [if_true, Except.ok.injEq, Prod.mk.injEq] at h
                obtain ⟨h1, h2⟩ := h
                subst h1 h2
                exact ⟨hp1, hsh1⟩
              | false =>
                simp only [Bool.false_eq_true, if_false, Except.ok.injEq, Prod.mk.injEq,
                  List.append_nil] at h
                obtain ⟨h1, h2⟩ := h
                subst h1 h2
                exact ⟨hp1, hsh1⟩
          · -- descending: right skipped, left traversed
            rcases hs1 : traverseChild ln start e asc incl cb with e1 | ⟨vis1, s1⟩ <;>
              rw [hs1] at h
            · simp at h
            · obtain ⟨hp1, hsh1⟩ := childOk IH hcl hs1
              simp only [Except.ok.injEq, Prod.mk.injEq] at h
              obtain ⟨h1, h2⟩ := h
              subst h1 h2
              exact ⟨hp1, hsh1⟩
      -- (true, true): the node itself is visited
      · rcases hcb : cb (IAVLNode.mk nk nv ver hh s ha lh ln rh rn p) <;>
          simp only [hcb, if_true, if_false, Bool.false_eq_true] at h
        · -- callback does not stop here
          have hvp : ∀ m ∈ [IAVLNode.mk nk nv ver hh s ha lh ln rh rn p],
              (afterStartB start m.key && beforeEndB e incl m.key) = true := by
            intro m hm
            simp only [List.mem_singleton] at hm
            subst hm
            simp [IAVLNode.key, hg1, hg2]
          have hvc : ∀ m ∈ [IAVLNode.mk nk nv ver hh s ha lh ln rh rn p], cb m = false := by
            intro m hm
            simp only [List.mem_singleton] at hm
            subst hm
            exact hcb
          split at h
          · simp only [Except.ok.injEq, Prod.mk.injEq] at h
            obtain ⟨h1, h2⟩ := h
            subst h1 h2
            exact ⟨hvp, by simpa [stopShape] using hvc⟩
          · split at h
            · -- ascending: left then right
              rcases hs1 : traverseChild ln start e asc incl cb with e1 | ⟨vis1, s1⟩ <;>
                rw [hs1] at h
              · simp at h
              · obtain ⟨hp1, hsh1⟩ := childOk IH hcl hs1
                cases s1 with
                | true =>
                  simp only [if_true, Except.ok.injEq, Prod.mk.injEq] at h
                  obtain ⟨h1, h2⟩ := h
                  subst h1 h2
                  exact ⟨all_mem_append hvp hp1, stopShape_append hvc hsh1⟩
                | false =>
                  simp only [Bool.false_eq_true, if_false] at h
                  have h1f : ∀ m ∈ vis1, cb m = false := by
                    simpa [stopShape] using hsh1
                  rcases hs2 : traverseChild rn start e asc incl cb with e2 | ⟨vis2, s2⟩ <;>
                    rw [hs2] at h
                  · simp at h
                  · obtain ⟨hp2, hsh2⟩ := childOk IH hcr hs2
                    simp only [Except.ok.injEq, Prod.mk.injEq] at h
                    obtain ⟨h1, h2⟩ := h
                    subst h1 h2
                    exact ⟨all_mem_append (all_mem_append hvp hp1) hp2,
                      stopShape_append (all_mem_append hvc h1f) hsh2⟩
            · -- descending: right then left
              rcases hs1 : traverseChild rn start e asc incl cb with e1 | ⟨vis1, s1⟩ <;>
                rw [hs1] at h
              · simp at h
              · obtain ⟨hp1, hsh1⟩ := childOk IH hcr hs1
                cases s1 with
                | true =>
                  simp only [if_true, Except.ok.injEq, Prod.mk.injEq] at h
                  obtain ⟨h1, h2⟩ := h
                  subst h1 h2
                  exact ⟨all_mem_append hvp hp1, stopShape_append hvc hsh1⟩
                | false =>
                  simp only [Bool.false_eq_true, if_false] at h
                  have h1f : ∀ m ∈ vis1, cb m = false := by
                    simpa [stopShape] using hsh1
                  rcases hs2 : traverseChild ln start e asc incl cb with e2 | ⟨vis2, s2⟩ <;>
                    rw [hs2] at h
                  · simp at h
                  · obtain ⟨hp2, hsh2⟩ := childOk IH hcl hs2
                    simp only [Except.ok.injEq, Prod.mk.injEq] at h
                    obtain ⟨h1, h2⟩ := h
                    subst h1 h2
                    exact ⟨all_mem_append (all_mem_append hvp hp1) hp2,
                      stopShape_append (all_mem_append hvc h1f) hsh2⟩
        · -- callback stops at this node
          simp only [Except.ok.injEq, Prod.mk.injEq] at h
          obtain ⟨h1, h2⟩ := h
          subst h1 h2
          refine ⟨?_, ?_⟩
          · intro m hm
            simp only [List.mem_singleton] at hm
            subst hm
            simp [IAVLNode.key, hg1, hg2]
          · simp only [stopShape, if_true]
            exact ⟨[], IAVLNode.mk nk nv ver hh s ha lh ln rh rn p, by simp, by simp, hcb⟩

theorem traverse_inorder :
    ∀ (N : Nat) (n : IAVLNode) (asc : Bool) (l : List IAVLNode) (st : Bool),
      nodeCount n ≤ N →
      n.traverseInRange none none asc false (fun _ => false) = .ok (l, st) →
      st = false ∧ (l.filter (fun m => m.isLeaf)).map (fun m => (m.key, m.value))
        = (if asc then leafEntries n else (leafEntries n).reverse) := by
  intro N
  induction N with
  | zero =>
    intro n _ _ _ hle _
    have := nodeCount_pos n
    omega
  | succ N IH =>
    intro n asc l st hle h
    cases n with
    | mk nk nv ver hh s ha lh ln rh rn p =>
      obtain ⟨hcl, hcr⟩ := nodeCount_children_le hle
      rw [IAVLNode.traverseInRange] at h
      simp only [afterStartB, beforeEndB, Bool.and_self, if_true, if_false,
        Bool.false_eq_true, Bind.bind, Except.bind, List.nil_append] at h
      cases hleaf : (hh == 0) <;> simp only [hleaf, if_true, if_false, Bool.false_eq_true] at h
      · cases asc <;> simp only [if_true, if_false, Bool.false_eq_true] at h
        · -- descending: right then left
          rcases rn with _ | d
          · rw [traverseChild] at h
            simp at h
          · rw [traverseChild] at h
            rcases hs1 : d.traverseInRange none none false false (fun _ => false)
                with e1 | ⟨vis1, s1⟩ <;> rw [hs1] at h
            · simp at h
            · obtain ⟨hst1, hm1⟩ := IH d false vis1 s1 (hcr d rfl) hs1
              subst hst1
              simp only [Bool.false_eq_true, if_false] at h
              rcases ln with _ | c
              · rw [traverseChild] at h
                simp at h
              · rw [traverseChild] at h
                rcases hs2 : c.traverseInRange none none false false (fun _ => false)
                    with e2 | ⟨vis2, s2⟩ <;> rw [hs2] at h
                · simp at h
                · obtain ⟨hst2, hm2⟩ := IH c false vis2 s2 (hcl c rfl) hs2
                  subst hst2
                  simp only [Except.ok.injEq, Prod.mk.injEq] at h
                  obtain ⟨h1, h2⟩ := h
                  subst h1 h2
                  refine ⟨rfl, ?_⟩
                  have hpn : (IAVLNode.mk nk nv ver hh s ha lh (some c) rh (some d)
                      p).isLeaf = false := by
                    simp [IAVLNode.isLeaf, IAVLNode.height, hleaf]
                  simp only [Bool.false_eq_true, if_false] at hm1 hm2
                  simp [List.filter_append, List.filter_cons, hpn, List.map_append,
                    hm1, hm2, leafEntries, hleaf, List.reverse_append]
        · -- ascending: left then right
          rcases ln with _ | c
          · rw [traverseChild] at h
            simp at h
          · rw [traverseChild] at h
            rcases hs1 : c.traverseInRange none none true false (fun _ => false)
                with e1 | ⟨vis1, s1⟩ <;> rw [hs1] at h
            · simp at h
            · obtain ⟨hst1, hm1⟩ := IH c true vis1 s1 (hcl c rfl) hs1
              subst hst1
              simp only [Bool.false_eq_true, if_false] at h
              rcases rn with _ | d
              · rw [traverseChild] at h
                simp at h
              · rw [traverseChild] at h
                rcases hs2 : d.traverseInRange none none true false (fun _ => false)
                    with e2 | ⟨vis2, s2⟩ <;> rw [hs2] at h
                · simp at h
                · obtain ⟨hst2, hm2⟩ := IH d true vis2 s2 (hcr d rfl) hs2
                  subst hst2
                  simp only [Except.ok.injEq, Prod.mk.injEq] at h
                  obtain ⟨h1, h2⟩ := h
                  subst h1 h2
                  refine ⟨rfl, ?_⟩
                  have hpn : (IAVLNode.mk nk nv ver hh s ha lh (some c) rh (some d)
                      p).isLeaf = false := by
                    simp [IAVLNode.isLeaf, IAVLNode.height, hleaf]
                  simp only [if_true] at hm1 hm2
                  simp [List.filter_append, List.filter_cons, hpn, List.map_append,
                    hm1, hm2, leafEntries, hleaf]
      · -- leaf
        simp only [Except.ok.injEq, Prod.mk.injEq] at h
        obtain ⟨h1, h2⟩ := h
        subst h1 h2
        refine ⟨rfl, ?_⟩
        rcases ln with _ | c <;> rcases rn with _ | d <;> cases asc <;>
          simp [leafEntries, IAVLNode.isLeaf, IAVLNode.height, IAVLNode.key, IAVLNode.value,
            hleaf]

theorem lmdKey_mem_leafKeys :
    ∀ (N : Nat) (n : IAVLNode) (x : List Nat), nodeCount n ≤ N →
      lmdKey n = some x → x ∈ leafKeys n := by
  intro N
  induction N with
  | zero =>
    intro n _ hle _
    have := nodeCount_pos n
    omega
  | succ N IH =>
    intro n x hle h
    cases n with
    | mk nk nv ver hh s ha lh ln rh rn p =>
      obtain ⟨hcl, hcr⟩ := nodeCount_children_le hle
      cases hleaf : (hh == 0) <;> rcases ln with _ | c <;> rcases rn with _ | d <;>
        simp only [lmdKey, leafKeys, hleaf, if_true, if_false, Bool.false_eq_true,
          List.mem_singleton, List.mem_append, List.append_nil, List.nil_append,
          Option.some.injEq, reduceCtorEq] at h ⊢
      all_goals try exact h.symm
      all_goals try exact IH c x (hcl c rfl) h
      all_goals exact Or.inl (IH c x (hcl c rfl) h)

theorem has_sep_immediate (n : IAVLNode) (k : List Nat) (h : n.key = k) :
    n.has k = .ok true := by
  cases n with
  | mk nk nv ver hh s ha lh ln rh rn p =>
    simp only [IAVLNode.key] at h
    subst h
    rcases ln with _ | c <;> rcases rn with _ | d <;> simp [IAVLNode.has]

theorem has_sound :
    ∀ (N : Nat) (n : IAVLNode) (k : List Nat), nodeCount n ≤ N → sepOk n = true →
      n.has k = .ok true → k ∈ leafKeys n := by
  intro N
  induction N with
  | zero =>
    intro n _ hle _ _
    have := nodeCount_pos n
    omega
  | succ N IH =>
    intro n k hle hsep h
    cases n with
    | mk nk nv ver hh s ha lh ln rh rn p =>
      obtain ⟨hcl, hcr⟩ := nodeCount_children_le hle
      cases hleaf : (hh == 0) <;> rcases ln with _ | c <;> rcases rn with _ | d <;>
        simp only [IAVLNode.has, sepOk, leafKeys, hleaf, if_true, if_false,
          Bool.false_eq_true, List.mem_singleton, List.mem_append, List.append_nil,
          List.nil_append, Bool.and_eq_true, beq_iff_eq] at hsep h ⊢
      -- the inner node with both children resident
      · obtain ⟨⟨hlmd, hsl⟩, hsr⟩ := hsep
        by_cases hk : nk = k
        · subst hk
          exact Or.inr (lmdKey_mem_leafKeys (nodeCount d) d nk le_rfl hlmd)
        · rw [if_neg hk] at h
          split at h
          · exact Or.inl (IH c k (hcl c rfl) hsl h)
          · exact Or.inr (IH d k (hcr d rfl) hsr h)
      -- leaves: only an equal key answers true
      all_goals by_cases hk : nk = k
      all_goals try exact hk.symm
      all_goals rw [if_neg hk] at h
      all_goals exact absurd h (by simp)

/-- C5 (amended): for every storable node — height in `int8` range, version
in 64 bits, a leaf carrying no child hashes, an inner node carrying both
child hashes and a nil value — decoding the store-bytes encoding reproduces
the node in all attributes except `hash`, `persisted`, and the resident
in-memory child references `leftNode`/`rightNode`, which decoding leaves
empty. -/
theorem c5_store_roundtrip (n : IAVLNode) (hst : storable n = true) :
    n.writeBytes >>= MakeIAVLNode = .ok (stripVolatile n) := by
  cases n with
  | mk k v ver hh s ha lh l rh r p =>
    simp only [storable, Bool.and_eq_true, decide_eq_true_eq] at hst
    by_cases h0 : hh = 0
    · subst h0
      obtain ⟨⟨⟨hb1, hb2⟩, hb3⟩, hb4⟩ := hst
      simp only [beq_self_eq_true, if_true, Bool.and_eq_true, Option.isNone_iff_eq_none] at hb4
      obtain ⟨hlh, hrh⟩ := hb4
      subst hlh hrh
      simp only [IAVLNode.writeBytes, beq_self_eq_true, if_true]
      simp only [Bind.bind, Except.bind]
      simp only [writeInt8, List.append_assoc, List.cons_append, List.nil_append]
      simp only [MakeIAVLNode, getVarint_writeVarint, List.drop_left,
        getByteSlice_writeByteSlice, getUint64_writeUint64 ver hb3]
      rw [show writeByteSlice v = writeByteSlice v ++ [] by simp]
      simp only [getByteSlice_writeByteSlice]
      rw [readInt8_writeInt8 0 (by omega) (by omega)]
      simp [stripVolatile]
    · have hbeq : (hh == 0) = false := by simpa using h0
      rw [if_neg (by simp [h0])] at hst
      obtain ⟨⟨⟨hb1, hb2⟩, hb3⟩, hb4⟩ := hst
      simp only [Bool.and_eq_true, Option.isSome_iff_exists, List.isEmpty_iff] at hb4
      obtain ⟨⟨⟨lhb, hlh⟩, rhb, hrh⟩, hv⟩ := hb4
      subst hlh hrh hv
      simp only [IAVLNode.writeBytes, hbeq, if_false, Bool.false_eq_true]
      simp only [Bind.bind, Except.bind]
      simp only [writeInt8, List.append_assoc, List.cons_append, List.nil_append]
      simp only [MakeIAVLNode, getVarint_writeVarint, List.drop_left,
        getByteSlice_writeByteSlice, getUint64_writeUint64 ver hb3]
      rw [readInt8_writeInt8 hh hb1 hb2]
      rw [if_neg h0]
      rw [show writeByteSlice rhb = writeByteSlice rhb ++ [] by simp]
      simp only [getByteSlice_writeByteSlice, List.drop_left]
      simp [stripVolatile]

/-- C7 (amended): decoding has exactly two failure modes — a `DecodeError`
returned to the caller, or the out-of-range fault, and the fault occurs
precisely on the empty input (the `buf[0]` read) or when fewer than eight
bytes remain for the fixed-width version field after the header parses. -/
theorem c7_decode_failure_modes (buf : List Nat) :
    (MakeIAVLNode buf = .error .outOfRangePanic ↔ buf = [] ∨ versionShort buf = true)
    ∧ (∀ e, MakeIAVLNode buf = .error e → e = .decodeError ∨ e = .outOfRangePanic) := by
  cases buf with
  | nil => simp [MakeIAVLNode, versionShort]
  | cons b0 buf1 =>
    simp only [MakeIAVLNode, versionShort]
    rcases hv : getVarint buf1 with _ | ⟨sz, n1⟩ <;> simp only [hv]
    · simp
    · rcases hk : getByteSlice (buf1.drop n1) with _ | ⟨key, n2⟩ <;> simp only [hk]
      · simp
      · rcases hu : getUint64 ((buf1.drop n1).drop n2) with _ | ⟨ver, buf4⟩ <;> simp only [hu]
        · have hlen : ((buf1.drop n1).drop n2).length < 8 := (getUint64_eq_none_iff _).1 hu
          simp at hlen ⊢ <;> omega
        · have hlen : ¬ ((buf1.drop n1).drop n2).length < 8 := by
            intro hc
            rw [(getUint64_eq_none_iff _).2 hc] at hu
            exact Option.noConfusion hu
          split
          · rcases hval : getByteSlice buf4 with _ | ⟨val, n5⟩ <;> simp only [hval] <;>
              simp at hlen ⊢ <;> omega
          · rcases hlh : getByteSlice buf4 with _ | ⟨lhb, n5⟩ <;> simp only [hlh]
            · simp at hlen ⊢ <;> omega
            · rcases hrh : getByteSlice (buf4.drop n5) with _ | ⟨rhb, n6⟩ <;> simp only [hrh] <;>
                simp at hlen ⊢ <;> omega

/-- C1: evaluation of `set` at the failing input.  Updating the value of key
"a" in the fully persisted two-key tree of S2 returns `updated = true` and a
new root sharing the right leaf, but the orphan list holds only the old leaf
`("a","1")` — one node, not the two the claim requires: the inner node
appended to `orphaned` in the inner case of `set` is lost when the
multi-assignment from the recursive call overwrites that variable. -/
theorem c1_set_orphans_drop_inner :
    s2Root.set [97] [49, 39] =
      .ok (.mk [98] [] 0 1 2 none none (some (NewIAVLNode [97] [49, 39]))
        none (some s2LeafB) false, true, [s2LeafA])
    ∧ (s2Root.set [97] [49, 39]).map (fun x => x.2.2.length) = .ok 1 :=
  ⟨rfl, rfl⟩

/-- C2: counterexample.  The claim's own concrete instance fails: inserting
`a→1, b→2, c→3` and inserting `c→3, a→1, b→2` followed by re-setting `b→2`
yield the same final key→value mapping but different root digests. -/
theorem c2_hash_not_mapping_determined :
    treeSetSeq none [([97], [49]), ([98], [50]), ([99], [51])] = .ok (some abcTree)
    ∧ treeSetSeq none [([99], [51]), ([97], [49]), ([98], [50]), ([98], [50])]
        = .ok (some cbaTree)
    ∧ leafEntries abcTree = leafEntries cbaTree
    ∧ rootHashDigest abcTree ≠ rootHashDigest cbaTree :=
  ⟨rfl, rfl, rfl, by decide⟩

/-- C2 (amended): the root hash is determined by the tree alone, not by the
final key→value mapping: the claim's two insert sequences produce
structurally different roots (separator "b" versus separator "c") whose
leaf entries agree while their root digests differ. -/
theorem c2_hash_depends_on_structure :
    treeSetSeq none [([97], [49]), ([98], [50]), ([99], [51])] = .ok (some abcTree)
    ∧ treeSetSeq none [([99], [51]), ([97], [49]), ([98], [50]), ([98], [50])]
        = .ok (some cbaTree)
    ∧ abcTree.key = [98] ∧ cbaTree.key = [99]
    ∧ abcTree.height = 2 ∧ cbaTree.height = 2
    ∧ leafEntries abcTree = leafEntries cbaTree
    ∧ rootHashDigest abcTree ≠ rootHashDigest cbaTree :=
  ⟨rfl, rfl, rfl, rfl, rfl, rfl, rfl, by decide⟩

/-- C3: counterexample.  Inserting "c", "b", "a" in order triggers no
rotation at all: the final balance factor is 1, the root separator is "c"
(not "b") and the height is 2 (not 1). -/
theorem c3_cba_no_rotation :
    treeSetSeq none [([99], [51]), ([98], [50]), ([97], [49])] = .ok (some cbaTree)
    ∧ cbaTree.height ≠ 1 ∧ cbaTree.key ≠ [98] :=
  ⟨rfl, by decide, by decide⟩

/-- C3 (amended): inserting "c", "b", "a" in order into an empty tree leaves
the tree within the AVL bound without any rotation: the root has separator
"c", height 2 and size 3, its left child is the inner node with separator
"b" over the leaves "a" and "b", and its right child is the leaf "c". -/
theorem c3_cba_shape :
    treeSetSeq none [([99], [51]), ([98], [50]), ([97], [49])] = .ok (some cbaTree)
    ∧ cbaTree.key = [99] ∧ cbaTree.height = 2 ∧ cbaTree.size = 3 :=
  ⟨rfl, rfl, rfl, rfl⟩

/-- C4: in `remove`, a collapse of the descended-into left child returns the
surviving right child (hash and node) with the current node's separator as
the new propagated key; a collapse of the right child returns the surviving
left child with no new key; and concretely, removing "a" after inserting
"c", "b", "a" yields `removed = true`, removed value "1", and a root that is
a single inner node with separator "c", left leaf "b", right leaf "c", size
2 and height 1. -/
theorem c4_remove_collapse :
    (∀ (n l : IAVLNode) (k : List Nat) (nk2 v2 : Option (List Nat)),
      n.height ≠ 0 → n.leftNode = some l → bytesCompare k n.key = .lt →
      l.remove k = .ok (none, none, nk2, v2, true) →
      n.remove k = .ok (n.rightHash, n.rightNode, some n.key, v2, true))
    ∧ (∀ (n r : IAVLNode) (k : List Nat) (nk2 v2 : Option (List Nat)),
      n.height ≠ 0 → n.rightNode = some r → ¬ bytesCompare k n.key = .lt →
      r.remove k = .ok (none, none, nk2, v2, true) →
      n.remove k = .ok (n.leftHash, n.leftNode, none, v2, true))
    ∧ cbaTree.remove [97] = .ok (none, some cbaMinusA, some [98], some [49], true)
    ∧ cbaMinusA.key = [99] ∧ cbaMinusA.size = 2 ∧ cbaMinusA.height = 1 := by
  refine ⟨?_, ?_, rfl, rfl, rfl, rfl⟩
  · intro n l k nk2 v2 hh0 hln hcmp hrec
    cases n with
    | mk nk nv ver hh s ha lh ln rh rn p =>
      simp only [IAVLNode.leftNode] at hln
      subst hln
      simp only [IAVLNode.height] at hh0
      have hbeq : (hh == 0) = false := by simpa using hh0
      simp only [IAVLNode.key] at hcmp
      rcases rn with _ | rc <;>
        simp [IAVLNode.remove, hbeq, hcmp, hrec, Bind.bind, Except.bind,
          IAVLNode.rightHash, IAVLNode.rightNode, IAVLNode.key]
  · intro n r k nk2 v2 hh0 hrn hcmp hrec
    cases n with
    | mk nk nv ver hh s ha lh ln rh rn p =>
      simp only [IAVLNode.rightNode] at hrn
      subst hrn
      simp only [IAVLNode.height] at hh0
      have hbeq : (hh == 0) = false := by simpa using hh0
      simp only [IAVLNode.key] at hcmp
      rcases ln with _ | lc <;>
        simp [IAVLNode.remove, hbeq, hcmp, hrec, Bind.bind, Except.bind,
          IAVLNode.leftHash, IAVLNode.leftNode, IAVLNode.key]

/-- C5: counterexample.  For an inner node with resident in-memory children,
decoding the store-bytes encoding yields a node whose child references are
gone, so the result is not equal to the original in all attributes except
`hash` and `persisted`: the `leftNode`/`rightNode` attributes changed too. -/
theorem c5_roundtrip_forgets_residents :
    residentInner.writeBytes >>= MakeIAVLNode = .ok (stripVolatile residentInner)
    ∧ eqExceptHashPersisted residentInner (stripVolatile residentInner) = false :=
  ⟨rfl, by decide⟩

/-- C5: witness of the round trip at a concrete storable node. -/
theorem c5_store_roundtrip_witness :
    storable residentInner = true
    ∧ residentInner.writeBytes >>= MakeIAVLNode = .ok (stripVolatile residentInner) :=
  ⟨by decide, c5_store_roundtrip residentInner (by decide)⟩

/-- C6: the hash-bytes serialization writes height then size, then for a
leaf its key, value and version, and for an inner node only the two child
hashes; consequently an inner node's hash-bytes (and newly-hashed count) are
invariant under any change of its separator key and version, while two
leaves differing only in their (64-bit) versions always produce different
hash-bytes — version enters the digest only through leaves. -/
theorem c6_hash_bytes_fields :
    (∀ (k v : List Nat) (ver : Nat) (s : Int) (ha : Option (List Nat)) (p : Bool),
      (IAVLNode.mk k v ver 0 s ha none none none none p).writeHashBytes =
        .ok (writeInt8 0 ++ writeVarint s ++ writeByteSlice k ++ writeByteSlice v
          ++ writeUint64 ver, 0, IAVLNode.mk k v ver 0 s ha none none none none p))
    ∧ (∀ (k v : List Nat) (ver : Nat) (h s : Int) (ha : Option (List Nat))
        (lhb rhb : List Nat) (p : Bool), h ≠ 0 →
      (IAVLNode.mk k v ver h s ha (some lhb) none (some rhb) none p).writeHashBytes =
        .ok (writeInt8 h ++ writeVarint s ++ writeByteSlice lhb ++ writeByteSlice rhb, 0,
          IAVLNode.mk k v ver h s ha (some lhb) none (some rhb) none p))
    ∧ (∀ (n : IAVLNode) (k2 : List Nat) (v2 : Nat), n.height ≠ 0 →
      (((n.withKey k2).withVersion v2).writeHashBytes).map (fun x => (x.1, x.2.1))
        = (n.writeHashBytes).map (fun x => (x.1, x.2.1)))
    ∧ (∀ (k v : List Nat) (s : Int) (ha : Option (List Nat)) (p : Bool) (ver1 ver2 : Nat),
        ver1 < 2 ^ 64 → ver2 < 2 ^ 64 → ver1 ≠ ver2 →
      (IAVLNode.mk k v ver1 0 s ha none none none none p).writeHashBytes ≠
        (IAVLNode.mk k v ver2 0 s ha none none none none p).writeHashBytes) :=
  ⟨writeHashBytes_leaf, writeHashBytes_inner_frozen, writeHashBytes_key_version_indep,
    writeHashBytes_leaf_version_inj⟩

/-- C6: witness instantiating each part at concrete nodes. -/
theorem c6_hash_bytes_fields_witness :
    ((IAVLNode.mk [97] [49] 5 0 1 none none none none none false).writeHashBytes =
      .ok (writeInt8 0 ++ writeVarint 1 ++ writeByteSlice [97] ++ writeByteSlice [49]
        ++ writeUint64 5, 0, IAVLNode.mk [97] [49] 5 0 1 none none none none none false))
    ∧ ((IAVLNode.mk [98] [] 7 1 2 none (some [3]) none (some [4]) none false).writeHashBytes =
      .ok (writeInt8 1 ++ writeVarint 2 ++ writeByteSlice [3] ++ writeByteSlice [4], 0,
        IAVLNode.mk [98] [] 7 1 2 none (some [3]) none (some [4]) none false))
    ∧ ((((residentInner.withKey [1]).withVersion 9).writeHashBytes).map
        (fun x => (x.1, x.2.1)) = (residentInner.writeHashBytes).map (fun x => (x.1, x.2.1)))
    ∧ ((IAVLNode.mk [97] [49] 0 0 1 none none none none none false).writeHashBytes ≠
        (IAVLNode.mk [97] [49] 1 0 1 none none none none none false).writeHashBytes) :=
  ⟨c6_hash_bytes_fields.1 [97] [49] 5 1 none false,
    c6_hash_bytes_fields.2.1 [98] [] 7 1 2 none [3] [4] false (by decide),
    c6_hash_bytes_fields.2.2.1 residentInner [1] 9 (by decide),
    c6_hash_bytes_fields.2.2.2 [97] [49] 1 none false 0 1 (by decide) (by decide)
      (by decide)⟩

/-- C7: counterexample.  Decoding the empty byte string does not surface a
`DecodeError`: the `buf[0]` read faults with an out-of-range access, a
failure mode the claim rules out. -/
theorem c7_empty_input_faults :
    MakeIAVLNode [] = .error .outOfRangePanic
    ∧ Err.outOfRangePanic ≠ Err.decodeError :=
  ⟨rfl, by decide⟩

/-- C7: witness of the failure-mode characterization on a truncated input
(height byte, size varint and empty key parse, but no bytes remain for the
version field). -/
theorem c7_decode_failure_modes_witness :
    MakeIAVLNode [0, 2, 0] = .error .outOfRangePanic
    ∧ (Err.outOfRangePanic = .decodeError ∨ Err.outOfRangePanic = .outOfRangePanic) := by
  have h := (c7_decode_failure_modes [0, 2, 0]).1.mpr (Or.inr (by decide))
  exact ⟨h, (c7_decode_failure_modes [0, 2, 0]).2 _ h⟩

/-- C8: calling `balance` on a persisted node is fatal (the model returns
the distinguished `persistedBalancePanic`), and neither `set` nor `remove`
can ever produce that fatality on any input tree: every `balance` call they
make is on a freshly copied, non-persisted node. -/
theorem c8_balance_persisted_unreachable :
    (∀ n : IAVLNode, n.persisted = true → n.balance = .error .persistedBalancePanic)
    ∧ (∀ (n : IAVLNode) (k v : List Nat), n.set k v ≠ .error .persistedBalancePanic)
    ∧ (∀ (n : IAVLNode) (k : List Nat), n.remove k ≠ .error .persistedBalancePanic) := by
  refine ⟨?_, set_ne_pbp, remove_ne_pbp⟩
  intro n hp
  unfold IAVLNode.balance
  rw [hp]
  simp

/-- C8: witness — the fatality fires on the persisted S2 root, and `set` and
`remove` on the c-b-a tree do not reach it. -/
theorem c8_balance_persisted_unreachable_witness :
    s2Root.balance = .error .persistedBalancePanic
    ∧ cbaTree.set [97] [49] ≠ .error .persistedBalancePanic
    ∧ cbaTree.remove [97] ≠ .error .persistedBalancePanic :=
  ⟨c8_balance_persisted_unreachable.1 s2Root rfl,
    c8_balance_persisted_unreachable.2.1 cbaTree [97] [49],
    c8_balance_persisted_unreachable.2.2 cbaTree [97]⟩

/-- C9: `traverse` is exactly `traverseInRange` with no bounds and exclusive
end; in any successful `traverseInRange` every callback invocation is on a
node satisfying both `afterStart` and `beforeEnd`; the invocation list stops
at the first callback that returns stop (all earlier invocations returned
continue, and the stop flag is exactly whether some invocation stopped); and
with a never-stopping callback the ascending traversal visits the leaves in
in-order (left before right), the descending traversal in reverse, so the
recursion order is left-then-right ascending and right-then-left
descending under the respective guards. -/
theorem c9_traverse_spec :
    (∀ (n : IAVLNode) (asc : Bool) (cb : IAVLNode → Bool),
      n.traverse asc cb = n.traverseInRange none none asc false cb)
    ∧ (∀ (n : IAVLNode) (start e : Option (List Nat)) (asc incl : Bool)
        (cb : IAVLNode → Bool) (l : List IAVLNode) (st : Bool),
      n.traverseInRange start e asc incl cb = .ok (l, st) →
      (∀ m ∈ l, (afterStartB start m.key && beforeEndB e incl m.key) = true)
        ∧ stopShape cb l st)
    ∧ (∀ (n : IAVLNode) (asc : Bool) (l : List IAVLNode) (st : Bool),
      n.traverseInRange none none asc false (fun _ => false) = .ok (l, st) →
      st = false ∧ (l.filter (fun m => m.isLeaf)).map (fun m => (m.key, m.value))
        = (if asc then leafEntries n else (leafEntries n).reverse)) := by
  refine ⟨fun _ _ _ => rfl, ?_, ?_⟩
  · intro n start e asc incl cb l st h
    exact traverseInRange_spec (nodeCount n) n start e asc incl cb l st le_rfl h
  · intro n asc l st h
    exact traverse_inorder (nodeCount n) n asc l st le_rfl h

/-- C9: witness — a concrete stopping traversal of the S2 tree and the
concrete in-order visit of its leaves. -/
theorem c9_traverse_spec_witness :
    (s2Root.traverse true (fun m => m.key == [97])
      = s2Root.traverseInRange none none true false (fun m => m.key == [97]))
    ∧ ((∀ m ∈ [s2Root, s2LeafA],
        (afterStartB none m.key && beforeEndB none false m.key) = true)
      ∧ stopShape (fun m => m.key == [97]) [s2Root, s2LeafA] true)
    ∧ (false = false
      ∧ (([s2Root, s2LeafA, s2LeafB].filter (fun m => m.isLeaf)).map
          (fun m => (m.key, m.value))
        = (if true then leafEntries s2Root else (leafEntries s2Root).reverse))) :=
  ⟨c9_traverse_spec.1 s2Root true (fun m => m.key == [97]),
    c9_traverse_spec.2.1 s2Root none none true false (fun m => m.key == [97])
      [s2Root, s2LeafA] true rfl,
    c9_traverse_spec.2.2 s2Root true [s2Root, s2LeafA, s2LeafB] false rfl⟩

/-- C10: `has` answers true immediately whenever the search key equals the
current node's key — including on an inner node with no resident children
and no store, so no child is loaded — and this shortcut is sound exactly
under the separator invariant: whenever every inner separator is the
leftmost leaf key of its right subtree, a true answer implies the key is
present at some leaf. -/
theorem c10_has_separator_shortcut :
    (∀ (n : IAVLNode) (k : List Nat), n.key = k → n.has k = .ok true)
    ∧ (∀ (n : IAVLNode) (k : List Nat), sepOk n = true → n.has k = .ok true →
        k ∈ leafKeys n) := by
  refine ⟨has_sep_immediate, ?_⟩
  intro n k hsep h
  exact has_sound (nodeCount n) n k le_rfl hsep h

/-- C10: witness — the childless inner node answers true for its own
separator without any child access, and on the c-b-a tree (which satisfies
the separator invariant) a true answer locates the key among the leaves. -/
theorem c10_has_separator_shortcut_witness :
    bareInner.has [98] = .ok true
    ∧ sepOk cbaTree = true
    ∧ [97] ∈ leafKeys cbaTree :=
  ⟨c10_has_separator_shortcut.1 bareInner [98] rfl,
    by decide,
    c10_has_separator_shortcut.2 cbaTree [97] (by decide) rfl⟩

/-- C4: witness — both collapse directions instantiated on the inner node
with separator "b" over the leaves "a" and "b". -/
theorem c4_remove_collapse_witness :
    (IAVLNode.mk [98] [] 0 1 2 none none
        (some (IAVLNode.mk [97] [49] 0 0 1 none none none none none false))
        none (some (IAVLNode.mk [98] [50] 0 0 1 none none none none none false))
        false).remove [97] =
      .ok (none, some (IAVLNode.mk [98] [50] 0 0 1 none none none none none false),
        some [98], some [49], true)
    ∧ (IAVLNode.mk [98] [] 0 1 2 none none
        (some (IAVLNode.mk [97] [49] 0 0 1 none none none none none false))
        none (some (IAVLNode.mk [98] [50] 0 0 1 none none none none none false))
        false).remove [98] =
      .ok (none, some (IAVLNode.mk [97] [49] 0 0 1 none none none none none false),
        none, some [50], true) :=
  ⟨c4_remove_collapse.1
      (IAVLNode.mk [98] [] 0 1 2 none none
        (some (IAVLNode.mk [97] [49] 0 0 1 none none none none none false))
        none (some (IAVLNode.mk [98] [50] 0 0 1 none none none none none false)) false)
      (IAVLNode.mk [97] [49] 0 0 1 none none none none none false)
      [97] none (some [49]) (by decide) rfl (by decide) rfl,
    c4_remove_collapse.2.1
      (IAVLNode.mk [98] [] 0 1 2 none none
        (some (IAVLNode.mk [97] [49] 0 0 1 none none none none none false))
        none (some (IAVLNode.mk [98] [50] 0 0 1 none none none none none false)) false)
      (IAVLNode.mk [98] [50] 0 0 1 none none none none none false)
      [98] none (some [50]) (by decide) rfl (by decide) rfl⟩
